import Mathlib

/-!
Shallow embedding of the subdomain-enumeration pipeline of this repository
(`src/main.py`, `src/sources/sources.py`, `src/utils/telegram.py`) and proofs
about it.

Conventions of the embedding:
* An adapter ("source") is a value of `Source`; its `fetch` returns
  `Except String (Finset String)`: `Except.error` models a Python exception
  raised by `fetch`, `Except.ok` a returned set of candidate hostnames.
* Python sets of strings are `Finset String`.
* The cancellation event is modelled as an observation schedule
  `cancel : ℕ → Bool`: `cancel n` is the value `cancel_event.is_set()`
  returns at the n-th observation point.  Observation points are numbered in
  program order: the window-boundary check of window `w` (main.py line 122)
  observes `cancel (2*w)`, and the per-domain checkpoint inside
  `process_domain` (line 52) for a domain of window `w` observes
  `cancel (2*w+1)`; the post-loop check (line 138) observes `cancel (2*w')`
  where `w'` is the index of the first unprocessed window.  A signalled event
  that is never cleared during the run corresponds to a monotone schedule.
* Console printing and Telegram messages are side effects with no influence
  on the returned data, so they are not modelled; the data handed to
  `bot.update_progress` and `bot.send_file` is recorded explicitly.
* The local file system is modelled as `Option String`: the content of the
  output file if it exists, `none` if it does not.
-/

namespace SubFinder

/-- Modelled from the spec: the validator interface of `src/utils/validator.py`
(`DomainValidator.is_valid_domain`, `IPValidator.is_valid_ip_cidr`, and the
hostname-syntax test used by `filter_valid_subdomains`) is not part of the
sources under `src/`; the spec describes it only as an abstract capability
(`is_valid_domain(s) -> bool`, `is_valid_ip_or_cidr(s) -> bool`), so it is
kept abstract here as a bundle of boolean predicates. -/
structure Validator where
  is_valid_domain : String → Bool
  is_valid_ip_cidr : String → Bool
  is_valid_hostname : String → Bool

/-- True iff the string is empty or consists only of whitespace characters
(the entries the spec says the subdomain filter must discard). -/
def whitespace_only (h : String) : Bool :=
  h.data.all Char.isWhitespace

/-- Python's `h.endswith(suf)`, expressed on the underlying character lists. -/
def ends_with (h suf : String) : Bool :=
  suf.data.isSuffixOf h.data

/-- Modelled from the spec: `DomainValidator.filter_valid_subdomains` lives in
`src/utils/validator.py`, which is not among the sources under `src/`.  The
spec (section 4.1) says the filter (a) discards empty/whitespace-only entries,
(b) discards entries not ending in `"." + domain` and not equal to `domain`,
and (c) discards entries that are not syntactically valid hostnames; hostname
syntax validity is the abstract `Validator.is_valid_hostname`. -/
def filter_valid_subdomains (V : Validator) (candidates : Finset String)
    (domain : String) : Finset String :=
  candidates.filter fun h =>
    whitespace_only h = false
    ∧ (h = domain ∨ ends_with h ("." ++ domain) = true)
    ∧ V.is_valid_hostname h = true

/-- A source adapter, after `src/sources/sources.py`: the abstract class
`SubdomainSource` has a `name` and a `fetch(domain)` method that returns a set
of candidate hostnames or raises (here: `Except.error`).  The concrete
adapters (`CrtshSource`, `HackertargetSource`, `RapidDnsSource`) perform
network I/O, so a `Source` abstracts over any fetch behaviour. -/
structure Source where
  name : String
  fetch : String → Except String (Finset String)

/-- Embedding of `SubFinder._fetch_from_source` (main.py lines 22-28): call
`source.fetch(domain)` once inside a `try`; on success filter the result with
`DomainValidator.filter_valid_subdomains`; on any exception report the error
(side effect, not modelled) and return the empty set.  The function is total:
it never propagates the adapter's failure to its caller. -/
def fetch_from_source (V : Validator) (source : Source) (domain : String) :
    Finset String :=
  match source.fetch domain with
  | Except.ok found => filter_valid_subdomains V found domain
  | Except.error _ => ∅

/-- Embedding of `SubFinder._fetch_from_source` over an adapter whose outcome
may differ between attempts (`outcomes n` is what `source.fetch(domain)` would
do on attempt `n`).  The code body (main.py lines 22-28) performs exactly one
`source.fetch(domain)` call — attempt `0` — with no retry loop around it, so
only `outcomes 0` is consulted. -/
def fetch_from_source_attempts (V : Validator)
    (outcomes : ℕ → Except String (Finset String)) (domain : String) :
    Finset String :=
  match outcomes 0 with
  | Except.ok found => filter_valid_subdomains V found domain
  | Except.error _ => ∅

/-- Modelled from the spec: section 4.1 says "Each adapter call is
independently retried up to a fixed retry budget (3 attempts) on any failure".
This is the fetch behaviour the spec describes, for comparison with
`fetch_from_source_attempts`: up to three attempts, stopping at the first
success, absorbing the failure as `∅` only after the third failed attempt. -/
def spec_fetch_with_retry (V : Validator)
    (outcomes : ℕ → Except String (Finset String)) (domain : String) :
    Finset String :=
  match outcomes 0 with
  | Except.ok found => filter_valid_subdomains V found domain
  | Except.error _ =>
    match outcomes 1 with
    | Except.ok found => filter_valid_subdomains V found domain
    | Except.error _ =>
      match outcomes 2 with
      | Except.ok found => filter_valid_subdomains V found domain
      | Except.error _ => ∅

/-- Union of a list of finsets, as `set().union(*results)` (main.py line 71);
an empty list gives the empty set, matching `if results else set()`. -/
def union_list (l : List (Finset String)) : Finset String :=
  l.foldr (· ∪ ·) ∅

/-- Embedding of `SubFinder.process_domain` (main.py lines 51-75), enriched
with the list of adapter names actually invoked.  `cancelSet` is the value the
cancellation checkpoint (line 52) observes.  If it is set, return the empty
set at once, invoking no adapter.  If the domain is invalid, report and return
the empty set, invoking no adapter (lines 56-59).  Otherwise run every
adapter's `_fetch_from_source` concurrently (lines 63-66; the `as_completed`
collection order does not matter because the results are merged with set
union, line 71) and return the union. -/
def process_domain_trace (V : Validator) (cancelSet : Bool) (domain : String)
    (sources : List Source) : Finset String × List String :=
  if cancelSet then (∅, [])
  else if V.is_valid_domain domain = false then (∅, [])
  else
    (union_list (sources.map fun s => fetch_from_source V s domain),
     sources.map Source.name)

/-- The set returned by `SubFinder.process_domain`: the first component of the
instrumented embedding. -/
def process_domain (V : Validator) (cancelSet : Bool) (domain : String)
    (sources : List Source) : Finset String :=
  (process_domain_trace V cancelSet domain sources).1

/-- Run-level accumulator of `SubFinder.run_async`: `completed` is
`self.completed`, `all_subdomains` is `all_subdomains`, `completedSeq` records
the successive values of `self.completed` passed to `bot.update_progress`
(one per processed window, line 130), and `invoked` records every
(domain, adapter-name) pair whose `source.fetch` was actually invoked. -/
structure RunAcc where
  completed : ℕ
  all_subdomains : Finset String
  completedSeq : List ℕ
  invoked : List (String × String)
deriving DecidableEq

/-- The empty accumulator at run start (main.py lines 81, 111). -/
def init_acc : RunAcc :=
  { completed := 0, all_subdomains := ∅, completedSeq := [], invoked := [] }

/-- Embedding of the window loop of `SubFinder.run_async` (main.py lines
120-136) for a window of size `m + 1` (the code fixes `max_concurrent = 3`,
i.e. `m = 2`; the size is kept as a parameter to state window-size
independence).  `w` is the index of the next window, used to time the
cancellation observations; `fuel` bounds the recursion and is always called
with `fuel ≥ l.length`, which suffices because every iteration consumes at
least one domain.  Before each window the loop checks the cancellation event
(line 122) and breaks if it is set; otherwise it processes the next batch
`domains[i:i+max_concurrent]` concurrently, adds the number of returned sets
(all results are sets here, line 129) to `completed`, records the progress
update (line 130), and merges the results into `all_subdomains` (lines
131-133).  Returns the final accumulator and the index of the first
unprocessed window. -/
def run_async_loop (V : Validator) (sources : List Source) (cancel : ℕ → Bool)
    (m : ℕ) : ℕ → ℕ → List String → RunAcc → RunAcc × ℕ
  | 0, w, _, acc => (acc, w)
  | _ + 1, w, [], acc => (acc, w)
  | fuel + 1, w, l@(_ :: _), acc =>
    if cancel (2 * w) then (acc, w)
    else
      let results := (l.take (m + 1)).map fun d =>
        (d, process_domain_trace V (cancel (2 * w + 1)) d sources)
      run_async_loop V sources cancel m fuel (w + 1) (l.drop (m + 1))
        { completed := acc.completed + results.length
          all_subdomains :=
            acc.all_subdomains ∪ union_list (results.map fun r => r.2.1)
          completedSeq := acc.completedSeq ++ [acc.completed + results.length]
          invoked :=
            acc.invoked ++ results.flatMap fun r =>
              r.2.2.map fun n => (r.1, n) }

/-- The domains `run_async` actually schedules from a list input: main.py line
94 keeps exactly the entries accepted by the domain validator or the IP/CIDR
validator. -/
def active_domains (V : Validator) (input : List String) : List String :=
  input.filter fun d => V.is_valid_domain d || V.is_valid_ip_cidr d

/-- Embedding of main.py lines 113-118: if a file exists at the output path it
is removed before the window loop starts, so afterwards the file does not
exist whatever the previous state was. -/
def clear_output_file (_fs : Option String) : Option String :=
  none

/-- Embedding of `SubFinder.save_subdomains` (main.py lines 30-49) on the
file-system state `fs` (content of the output path, `none` = absent).  With a
non-empty result set it writes the newline-joined sorted listing plus a
trailing newline (line 35, UTF-8), sends the file to the Telegram chat, then
deletes the local file (line 39); with an empty set it writes nothing and only
sends a "no subdomains found" message.  Returns the final file-system state
and the content that was sent (`none` when no file was sent). -/
def save_subdomains (subdomains : Finset String) (fs : Option String) :
    Option String × Option String :=
  if subdomains.Nonempty then
    (none, some (String.intercalate "\n" (subdomains.sort (· ≤ ·)) ++ "\n"))
  else
    (fs, none)

/-- Outcome of a run as its caller observes it: a setup error reported before
any window is scheduled (main.py lines 105-108), a cancelled run (lines
122-125 and 138-139, which `return` without saving), or a completed run whose
payload is the file content sent to the result sink (`none` when the result
set was empty and only a "no subdomains" message was sent). -/
inductive RunOutcome where
  | setupError : RunOutcome
  | cancelled : RunOutcome
  | completed : Option String → RunOutcome
deriving DecidableEq

/-- Everything `run_async` leaves behind: the outcome, the final accumulator,
and the final state of the output file. -/
structure RunRes where
  outcome : RunOutcome
  acc : RunAcc
  fsFinal : Option String
deriving DecidableEq

/-- Embedding of `SubFinder.run_async` (main.py lines 77-148) on a list input
(`input_data` a list, `is_file=False`): filter the input to the valid domains
(line 94); if none remain, report and return (lines 105-108); otherwise clear
any pre-existing output file (lines 113-118), run the window loop with
`max_concurrent = m + 1` (lines 120-136), re-check the cancellation event
(line 138) and return without saving if it is set, else save and send the
accumulated subdomains (line 141). -/
def run_async (V : Validator) (sources : List Source) (cancel : ℕ → Bool)
    (m : ℕ) (input : List String) (fs0 : Option String) : RunRes :=
  if (active_domains V input).isEmpty then
    { outcome := RunOutcome.setupError, acc := init_acc, fsFinal := fs0 }
  else
    if cancel (2 * (run_async_loop V sources cancel m
        (active_domains V input).length 0 (active_domains V input)
        init_acc).2) then
      { outcome := RunOutcome.cancelled
        acc := (run_async_loop V sources cancel m
          (active_domains V input).length 0 (active_domains V input)
          init_acc).1
        fsFinal := clear_output_file fs0 }
    else
      { outcome := RunOutcome.completed
          (save_subdomains (run_async_loop V sources cancel m
            (active_domains V input).length 0 (active_domains V input)
            init_acc).1.all_subdomains (clear_output_file fs0)).2
        acc := (run_async_loop V sources cancel m
          (active_domains V input).length 0 (active_domains V input)
          init_acc).1
        fsFinal := (save_subdomains (run_async_loop V sources cancel m
          (active_domains V input).length 0 (active_domains V input)
          init_acc).1.all_subdomains (clear_output_file fs0)).1 }

/-- Embedding of the coalescing head of `TelegramBot.update_progress`
(telegram.py lines 71-79 and 109-117): given the previously reported integer
percentage `last` (`self.last_percentage`, `-1` at run start) and the newly
computed integer percentage, return the emitted notification (if any) and the
new value of `self.last_percentage`.  If the percentage equals the last
reported one the method returns immediately, emitting nothing; otherwise it
emits the progress message, and when the percentage reaches 100 the progress
message is deleted and `last_percentage` is reset to `-1`. -/
def update_progress (last percentage : Int) : Option Int × Int :=
  if percentage = last then (none, last)
  else (some percentage, if 100 ≤ percentage then -1 else percentage)

/-- The notifications emitted by a sequence of `update_progress` calls,
starting from reported percentage `last`. -/
def progress_emissions (last : Int) : List Int → List Int
  | [] => []
  | p :: ps =>
    (update_progress last p).1.toList
      ++ progress_emissions (update_progress last p).2 ps

/-- A validator that accepts everything; used to instantiate theorems at
concrete inputs. -/
def permissive_validator : Validator :=
  { is_valid_domain := fun _ => true
    is_valid_ip_cidr := fun _ => true
    is_valid_hostname := fun _ => true }

/-- A deterministic adapter that always answers `{"x.a.com"}`. -/
def demo_source : Source :=
  { name := "Demo", fetch := fun _ => Except.ok {"x.a.com"} }

/-- An adapter whose fetch always raises. -/
def failing_source : Source :=
  { name := "Bad", fetch := fun _ => Except.error "connection refused" }

/-- Attempt-indexed adapter behaviour that fails on the first attempt and
would succeed on every later one. -/
def flaky_outcomes : ℕ → Except String (Finset String) := fun n =>
  if n = 0 then Except.error "connection reset" else Except.ok {"x.a.com"}

/-- A cancellation schedule that is signalled from observation point 2 on,
i.e. just after the first window of a run has been dispatched. -/
def cancel_after_first_window : ℕ → Bool := fun n =>
  decide (2 ≤ n)

/-! ### Helper lemmas -/

theorem union_list_append (a b : List (Finset String)) :
    union_list (a ++ b) = union_list a ∪ union_list b := by
  induction a with
  | nil => simp [union_list]
  | cons x xs ih =>
    simp only [union_list, List.cons_append, List.foldr_cons] at ih ⊢
    rw [ih, Finset.union_assoc]

theorem mem_union_list {x : String} {l : List (Finset String)} :
    x ∈ union_list l ↔ ∃ s ∈ l, x ∈ s := by
  induction l with
  | nil => simp [union_list]
  | cons a as ih => simp [union_list] at *
                    rw [ih]

theorem union_list_perm {a b : List (Finset String)} (h : a.Perm b) :
    union_list a = union_list b := by
  induction h with
  | nil => rfl
  | cons x _ ih => simp [union_list] at *
                   rw [ih]
  | swap x y l => simp [union_list, Finset.union_left_comm]
  | trans _ _ ih₁ ih₂ => rw [ih₁, ih₂]

theorem mem_take_mono {α : Type} {a : α} {l : List α} {s t : ℕ}
    (hst : s ≤ t) (h : a ∈ l.take s) : a ∈ l.take t := by
  have : l.take s = (l.take t).take s := by
    rw [List.take_take, Nat.min_eq_left hst]
  rw [this] at h
  exact List.take_subset _ _ h

theorem chain_lt_dropLast {ps : List ℕ} {B : ℕ} (hc : ps.Chain' (· < ·))
    (hub : ∀ x ∈ ps, x ≤ B) : ∀ x ∈ ps.dropLast, x < B := by
  induction ps with
  | nil => simp
  | cons a t ih =>
    cases t with
    | nil => simp
    | cons b u =>
      intro x hx
      rw [List.dropLast_cons₂] at hx
      rcases List.mem_cons.mp hx with hxa | hxd
      · have hab : a < b := (List.chain'_cons.mp hc).1
        have hbB : b ≤ B := hub b (by simp)
        rw [hxa]
        omega
      · exact ih (List.chain'_cons.mp hc).2
          (fun y hy => hub y (List.mem_cons_of_mem _ hy)) x hxd

theorem mem_dropLast_cons {α : Type} {x p : α} {ps : List α}
    (h : x ∈ ps.dropLast) : x ∈ (p :: ps).dropLast := by
  cases ps with
  | nil => simp at h
  | cons b u => rw [List.dropLast_cons₂]
                exact List.mem_cons_of_mem _ h

theorem progress_emissions_chain (ps : List Int) (last : Int)
    (hle : ∀ p ∈ ps, last ≤ p) (hpw : ps.Pairwise (· ≤ ·))
    (hdrop : ∀ p ∈ ps.dropLast, p < 100) (hub : ∀ p ∈ ps, p ≤ 100) :
    (progress_emissions last ps).Chain' (· < ·)
      ∧ ∀ e ∈ progress_emissions last ps, last < e := by
  induction ps generalizing last with
  | nil => simp [progress_emissions]
  | cons p ps ih =>
    have hlp : last ≤ p := hle p (by simp)
    by_cases hpl : p = last
    · have step : update_progress last p = (none, last) := by
        simp [update_progress, hpl]
      have hrec := ih last (fun q hq => hle q (List.mem_cons_of_mem _ hq))
        (List.pairwise_cons.mp hpw).2
        (fun q hq => hdrop q (mem_dropLast_cons hq))
        (fun q hq => hub q (List.mem_cons_of_mem _ hq))
      simpa [progress_emissions, step] using hrec
    · have hltp : last < p := lt_of_le_of_ne hlp (fun h => hpl h.symm)
      by_cases h100 : (100 : Int) ≤ p
      · have hps : ps = [] := by
          cases ps with
          | nil => rfl
          | cons b u =>
            have : p ∈ (p :: b :: u).dropLast := by
              rw [List.dropLast_cons₂]; simp
            have := hdrop p this
            omega
        subst hps
        have step : update_progress last p = (some p, -1) := by
          simp [update_progress, hpl, h100]
        constructor
        · simp [progress_emissions, step]
        · intro e he
          simp [progress_emissions, step] at he
          omega
      · have step : update_progress last p = (some p, p) := by
          simp [update_progress, hpl, h100]
        have hrec := ih p (fun q hq => (List.pairwise_cons.mp hpw).1 q hq)
          (List.pairwise_cons.mp hpw).2
          (fun q hq => hdrop q (mem_dropLast_cons hq))
          (fun q hq => hub q (List.mem_cons_of_mem _ hq))
        constructor
        · rw [progress_emissions]
          simp only [step, Option.toList_some, List.singleton_append]
          rw [List.chain'_cons']
          exact ⟨fun y hy => hrec.2 y (List.mem_of_mem_head? hy), hrec.1⟩
        · intro e he
          rw [progress_emissions] at he
          simp only [step, Option.toList_some, List.singleton_append] at he
          rcases List.mem_cons.mp he with h | h
          · omega
          · have := hrec.2 e h
            omega

theorem run_async_loop_seq (V : Validator) (sources : List Source)
    (cancel : ℕ → Bool) (m : ℕ) :
    ∀ (fuel w : ℕ) (l : List String) (acc : RunAcc),
      (∀ x ∈ acc.completedSeq, x ≤ acc.completed) →
      acc.completedSeq.Chain' (· < ·) →
      (∀ x ∈ (run_async_loop V sources cancel m fuel w l acc).1.completedSeq,
          x ≤ (run_async_loop V sources cancel m fuel w l acc).1.completed)
      ∧ (run_async_loop V sources cancel m fuel w l
          acc).1.completedSeq.Chain' (· < ·)
      ∧ acc.completed ≤ (run_async_loop V sources cancel m fuel w l
          acc).1.completed
      ∧ (run_async_loop V sources cancel m fuel w l acc).1.completed
          ≤ acc.completed + l.length := by
  intro fuel
  induction fuel with
  | zero =>
    intro w l acc h1 h2
    simp only [run_async_loop]
    exact ⟨h1, h2, le_refl _, Nat.le_add_right _ _⟩
  | succ fuel ih =>
    intro w l acc h1 h2
    cases l with
    | nil =>
      simp only [run_async_loop]
      exact ⟨h1, h2, le_refl _, Nat.le_add_right _ _⟩
    | cons d t =>
      simp only [run_async_loop]
      by_cases hc : cancel (2 * w) = true
      · rw [if_pos hc]
        exact ⟨h1, h2, le_refl _, Nat.le_add_right _ _⟩
      · rw [if_neg hc]
        have hlen1 :
            1 ≤ (((d :: t).take (m + 1)).map fun x =>
              (x, process_domain_trace V (cancel (2 * w + 1)) x
                sources)).length := by
          simp [List.length_take]
        set len := (((d :: t).take (m + 1)).map fun x =>
          (x, process_domain_trace V (cancel (2 * w + 1)) x sources)).length
          with hlendef
        have h1' : ∀ x ∈ acc.completedSeq ++ [acc.completed + len],
            x ≤ acc.completed + len := by
          intro x hx
          rcases List.mem_append.mp hx with hx | hx
          · exact le_trans (h1 x hx) (Nat.le_add_right _ _)
          · simp at hx
            omega
        have h2' : (acc.completedSeq ++
            [acc.completed + len]).Chain' (· < ·) := by
          rw [List.chain'_append]
          refine ⟨h2, List.chain'_singleton _, ?_⟩
          intro x hx y hy
          simp at hy
          have := h1 x (List.mem_of_mem_getLast? hx)
          omega
        have hrec := ih (w + 1) ((d :: t).drop (m + 1))
          { completed := acc.completed + len
            all_subdomains := acc.all_subdomains ∪
              union_list ((((d :: t).take (m + 1)).map fun x =>
                (x, process_domain_trace V (cancel (2 * w + 1)) x
                  sources)).map fun r => r.2.1)
            completedSeq := acc.completedSeq ++ [acc.completed + len]
            invoked := acc.invoked ++
              (((d :: t).take (m + 1)).map fun x =>
                (x, process_domain_trace V (cancel (2 * w + 1)) x
                  sources)).flatMap fun r => r.2.2.map fun n => (r.1, n) }
          h1' h2'
        refine ⟨hrec.1, hrec.2.1, le_trans (Nat.le_add_right _ _)
          hrec.2.2.1, le_trans hrec.2.2.2 ?_⟩
        show acc.completed + len + ((d :: t).drop (m + 1)).length
          ≤ acc.completed + (d :: t).length
        rw [hlendef]
        simp only [List.length_drop, List.length_map, List.length_take,
          List.length_cons]
        omega

theorem run_async_loop_complete (V : Validator) (sources : List Source)
    (cancel : ℕ → Bool) (m : ℕ) :
    ∀ (fuel w : ℕ) (l : List String) (acc : RunAcc), l.length ≤ fuel →
      cancel (2 * (run_async_loop V sources cancel m fuel w l acc).2)
        = false →
      (run_async_loop V sources cancel m fuel w l acc).1.completed
        = acc.completed + l.length := by
  intro fuel
  induction fuel with
  | zero =>
    intro w l acc hf _
    have : l.length = 0 := Nat.le_zero.mp hf
    simp only [run_async_loop]
    omega
  | succ fuel ih =>
    intro w l acc hf hcan
    cases l with
    | nil => simp [run_async_loop]
    | cons d t =>
      simp only [run_async_loop] at hcan ⊢
      by_cases hc : cancel (2 * w) = true
      · rw [if_pos hc] at hcan
        exact absurd hc (by simp [hcan])
      · rw [if_neg hc] at hcan ⊢
        have hf' : ((d :: t).drop (m + 1)).length ≤ fuel := by
          simp only [List.length_drop, List.length_cons] at *
          omega
        rw [ih _ _ _ hf' hcan]
        simp only [List.length_map, List.length_take, List.length_drop,
          List.length_cons]
        omega

theorem run_async_loop_invoked (V : Validator) (sources : List Source)
    (cancel : ℕ → Bool) (m j : ℕ)
    (hmono : ∀ a b, a ≤ b → cancel a = true → cancel b = true)
    (hj : cancel (2 * j) = true) :
    ∀ (fuel w : ℕ) (l : List String) (acc : RunAcc),
      ∀ p ∈ (run_async_loop V sources cancel m fuel w l acc).1.invoked,
        p ∈ acc.invoked ∨ p.1 ∈ l.take ((j - w) * (m + 1)) := by
  intro fuel
  induction fuel with
  | zero =>
    intro w l acc p hp
    simp only [run_async_loop] at hp
    exact Or.inl hp
  | succ fuel ih =>
    intro w l acc p hp
    cases l with
    | nil =>
      simp only [run_async_loop] at hp
      exact Or.inl hp
    | cons d t =>
      simp only [run_async_loop] at hp
      by_cases hc : cancel (2 * w) = true
      · rw [if_pos hc] at hp
        exact Or.inl hp
      · rw [if_neg hc] at hp
        have hwj : w < j := by
          rcases Nat.lt_or_ge w j with h | h
          · exact h
          · exact absurd (hmono (2 * j) (2 * w) (by omega) hj) hc
        have hjw1 : 1 ≤ j - w := by omega
        have hsplit : (j - w) * (m + 1)
            = (m + 1) + (j - w - 1) * (m + 1) := by
          obtain ⟨k, hk⟩ : ∃ k, j - w = k + 1 := ⟨j - w - 1, by omega⟩
          rw [hk, Nat.add_sub_cancel, Nat.succ_mul, Nat.add_comm]
        rcases ih _ _ _ p hp with h | h
        · rcases List.mem_append.mp h with h | h
          · exact Or.inl h
          · right
            rcases List.mem_flatMap.mp h with ⟨r, hr, hpr⟩
            rcases List.mem_map.mp hr with ⟨dom, hdom, hrdef⟩
            rcases List.mem_map.mp hpr with ⟨n, _, hpdef⟩
            have hp1 : p.1 = dom := by rw [← hpdef, ← hrdef]
            rw [hp1]
            exact mem_take_mono (by omega) hdom
        · right
          have hw1 : j - (w + 1) = j - w - 1 := by omega
          rw [hw1] at h
          rw [hsplit, List.take_add]
          exact List.mem_append.mpr (Or.inr h)

theorem run_async_loop_union (V : Validator) (sources : List Source)
    (m : ℕ) :
    ∀ (fuel w : ℕ) (l : List String) (acc : RunAcc), l.length ≤ fuel →
      (run_async_loop V sources (fun _ => false) m fuel w l
        acc).1.all_subdomains
      = acc.all_subdomains
        ∪ union_list (l.map fun d => process_domain V false d sources) := by
  intro fuel
  induction fuel with
  | zero =>
    intro w l acc hf
    have : l = [] := List.eq_nil_of_length_eq_zero (Nat.le_zero.mp hf)
    subst this
    simp [run_async_loop, union_list]
  | succ fuel ih =>
    intro w l acc hf
    cases l with
    | nil => simp [run_async_loop, union_list]
    | cons d t =>
      simp only [run_async_loop, Bool.false_eq_true, if_false]
      have hf' : ((d :: t).drop (m + 1)).length ≤ fuel := by
        simp only [List.length_drop, List.length_cons] at *
        omega
      rw [ih _ _ _ hf']
      simp only [List.map_map]
      have hcomp : ((fun r : String × Finset String × List String => r.2.1)
          ∘ fun x => (x, process_domain_trace V false x sources))
          = fun x => process_domain V false x sources := rfl
      rw [hcomp]
      rw [Finset.union_assoc, ← union_list_append, ← List.map_append,
        List.take_append_drop]

theorem run_async_loop_cancel_stop (V : Validator) (sources : List Source)
    (cancel : ℕ → Bool) (m j : ℕ)
    (hmono : ∀ a b, a ≤ b → cancel a = true → cancel b = true)
    (hj : cancel (2 * j) = true) :
    ∀ (fuel w : ℕ) (l : List String) (acc : RunAcc), l.length ≤ fuel →
      (j - w) * (m + 1) < l.length →
      cancel (2 * (run_async_loop V sources cancel m fuel w l acc).2)
        = true := by
  intro fuel
  induction fuel with
  | zero =>
    intro w l acc hf hrem
    omega
  | succ fuel ih =>
    intro w l acc hf hrem
    cases l with
    | nil => simp at hrem
    | cons d t =>
      simp only [run_async_loop]
      by_cases hc : cancel (2 * w) = true
      · rw [if_pos hc]
        exact hc
      · rw [if_neg hc]
        have hwj : w < j := by
          rcases Nat.lt_or_ge w j with h | h
          · exact h
          · exact absurd (hmono (2 * j) (2 * w) (by omega) hj) hc
        have hsplit : (j - w) * (m + 1)
            = (j - w - 1) * (m + 1) + (m + 1) := by
          obtain ⟨k, hk⟩ : ∃ k, j - w = k + 1 := ⟨j - w - 1, by omega⟩
          rw [hk, Nat.add_sub_cancel, Nat.succ_mul]
        apply ih
        · simp only [List.length_drop, List.length_cons] at *
          omega
        · have hw1 : j - (w + 1) = j - w - 1 := by omega
          rw [hw1]
          simp only [List.length_drop, List.length_cons] at *
          omega

theorem union_list_map_middle (V : Validator) (d : String) (src : Source)
    (hsrc : fetch_from_source V src d = ∅) (l₁ l₂ : List Source) :
    union_list ((l₁ ++ src :: l₂).map fun s => fetch_from_source V s d)
      = union_list ((l₁ ++ l₂).map fun s => fetch_from_source V s d) := by
  induction l₁ with
  | nil => simp [union_list, hsrc]
  | cons a as ih =>
    simp only [List.cons_append, List.map_cons, union_list,
      List.foldr_cons] at ih ⊢
    rw [ih]

/-! ### Claim theorems -/

/-- C1: For every domain and every list of adapters, the per-domain fetch
(`process_domain` with its helper `_fetch_from_source`) always returns a set
and never raises to its caller — in the embedding both are total functions
into `Finset String`, with the adapter's exception absorbed by
`fetch_from_source`'s error branch.  An adapter whose fetch raises contributes
the empty set for that adapter (the error being reported as a side effect not
modelled here), and the results of the other adapters for the same domain
still appear in the returned union: removing the failing adapter from the
adapter list does not change `process_domain`'s result. -/
theorem claim_c1_failure_isolation (V : Validator) (c : Bool) (d e : String)
    (src : Source) (l₁ l₂ : List Source)
    (hfail : src.fetch d = Except.error e) :
    fetch_from_source V src d = ∅
    ∧ process_domain V c d (l₁ ++ src :: l₂)
        = process_domain V c d (l₁ ++ l₂) := by
  have hsrc : fetch_from_source V src d = ∅ := by
    unfold fetch_from_source
    rw [hfail]
  refine ⟨hsrc, ?_⟩
  unfold process_domain process_domain_trace
  cases c with
  | true => rfl
  | false =>
    cases hvd : V.is_valid_domain d with
    | false => rfl
    | true =>
      show union_list ((l₁ ++ src :: l₂).map fun s => fetch_from_source V s d)
        = union_list ((l₁ ++ l₂).map fun s => fetch_from_source V s d)
      exact union_list_map_middle V d src hsrc l₁ l₂

/-- C1 witness: a concrete failing adapter next to a working one. -/
theorem claim_c1_witness :
    fetch_from_source permissive_validator failing_source "a.com" = ∅
    ∧ process_domain permissive_validator false "a.com"
        ([demo_source] ++ failing_source :: [])
      = process_domain permissive_validator false "a.com"
        ([demo_source] ++ []) :=
  claim_c1_failure_isolation permissive_validator false "a.com"
    "connection refused" failing_source [demo_source] [] rfl

/-- C2 counterexample: the claim says a failed adapter call is retried up to 3
attempts before being absorbed as an empty contribution.  On an adapter whose
fetch fails on the first attempt and would succeed on the second, the code
(`_fetch_from_source`, main.py lines 22-28, which performs a single
`source.fetch(domain)` call) returns the empty set, while the 3-attempt retry
behaviour described by the spec would return the successful result. -/
theorem claim_c2_counterexample :
    fetch_from_source_attempts permissive_validator flaky_outcomes "a.com" = ∅
    ∧ spec_fetch_with_retry permissive_validator flaky_outcomes "a.com"
        = {"x.a.com"} := by
  constructor
  · rfl
  · decide

/-- C2 (amended): each adapter call is attempted exactly once — the result of
`_fetch_from_source` depends only on the adapter's first-attempt behaviour —
and a failure of that single attempt is immediately absorbed as an empty
contribution, with no retry and no backoff. -/
theorem claim_c2_single_attempt (V : Validator)
    (outcomes outcomes2 : ℕ → Except String (Finset String)) (d : String) :
    (outcomes 0 = outcomes2 0 →
      fetch_from_source_attempts V outcomes d
        = fetch_from_source_attempts V outcomes2 d)
    ∧ ∀ e, outcomes 0 = Except.error e →
      fetch_from_source_attempts V outcomes d = ∅ := by
  constructor
  · intro h
    unfold fetch_from_source_attempts
    rw [h]
  · intro e he
    unfold fetch_from_source_attempts
    rw [he]

/-- C2 witness: the amended statement instantiated at the flaky adapter. -/
theorem claim_c2_witness :
    fetch_from_source_attempts permissive_validator flaky_outcomes "a.com"
      = fetch_from_source_attempts permissive_validator flaky_outcomes "a.com"
    ∧ fetch_from_source_attempts permissive_validator flaky_outcomes "a.com"
      = ∅ :=
  ⟨(claim_c2_single_attempt permissive_validator flaky_outcomes flaky_outcomes
      "a.com").1 rfl,
   (claim_c2_single_attempt permissive_validator flaky_outcomes flaky_outcomes
      "a.com").2 "connection reset" rfl⟩

/-- C7: for every domain `d` and every adapter result set, the per-domain
result contains only hostnames subordinate to `d`: every element is either
equal to `d` or ends with `"."` followed by `d`, and empty or whitespace-only
entries and syntactically invalid hostnames are discarded (the filter itself
is modelled from the spec, since `src/utils/validator.py` is not among the
sources). -/
theorem claim_c7_subordinate (V : Validator) (c : Bool) (d h : String)
    (sources : List Source)
    (hmem : h ∈ process_domain V c d sources) :
    (h = d ∨ ends_with h ("." ++ d) = true)
    ∧ whitespace_only h = false
    ∧ V.is_valid_hostname h = true := by
  unfold process_domain process_domain_trace at hmem
  cases c with
  | true =>
    have h0 : h ∈ (∅ : Finset String) := hmem
    simp at h0
  | false =>
    cases hvd : V.is_valid_domain d with
    | false =>
      rw [hvd] at hmem
      have h0 : h ∈ (∅ : Finset String) := hmem
      simp at h0
    | true =>
      rw [hvd] at hmem
      have hmem : h ∈ union_list
          (sources.map fun s => fetch_from_source V s d) := hmem
      rcases mem_union_list.mp hmem with ⟨s, hs, hmem2⟩
      rcases List.mem_map.mp hs with ⟨src, _, hsdef⟩
      rw [← hsdef] at hmem2
      unfold fetch_from_source at hmem2
      cases hfetch : src.fetch d with
      | error _ =>
        rw [hfetch] at hmem2
        simp at hmem2
      | ok found =>
        rw [hfetch] at hmem2
        unfold filter_valid_subdomains at hmem2
        have := (Finset.mem_filter.mp hmem2).2
        exact ⟨this.2.1, this.1, this.2.2⟩

/-- C7 witness: a concrete accepted hostname. -/
theorem claim_c7_witness :
    "x.a.com" ∈ process_domain permissive_validator false "a.com"
        [demo_source]
    ∧ (("x.a.com" = "a.com"
        ∨ ends_with "x.a.com" ("." ++ "a.com") = true)
      ∧ whitespace_only "x.a.com" = false
      ∧ permissive_validator.is_valid_hostname "x.a.com" = true) :=
  ⟨by decide, claim_c7_subordinate permissive_validator false "a.com"
    "x.a.com" [demo_source] (by decide)⟩

/-- C9: for every non-empty final result set, the output artifact written at
run end is the lexicographically sorted list of the unique hostnames,
newline-separated with one hostname per line, ending with a trailing newline
(UTF-8 is the encoding used by the `open(..., encoding="utf-8")` call and has
no counterpart at the level of Lean strings). -/
theorem claim_c9_output_format (s : Finset String) (fs : Option String)
    (hne : s.Nonempty) :
    ∃ l : List String,
      (save_subdomains s fs).2 = some (String.intercalate "\n" l ++ "\n")
      ∧ l.Sorted (· ≤ ·) ∧ l.Nodup ∧ ∀ h, h ∈ l ↔ h ∈ s := by
  refine ⟨s.sort (· ≤ ·), ?_, Finset.sort_sorted _ _, Finset.sort_nodup _ _,
    fun h => Finset.mem_sort _⟩
  unfold save_subdomains
  rw [if_pos hne]

/-- C9 witness: the statement instantiated at a two-element result set. -/
theorem claim_c9_witness :
    ∃ l : List String,
      (save_subdomains {"b.x.com", "a.x.com"} none).2
        = some (String.intercalate "\n" l ++ "\n")
      ∧ l.Sorted (· ≤ ·) ∧ l.Nodup
      ∧ ∀ h, h ∈ l ↔ h ∈ ({"b.x.com", "a.x.com"} : Finset String) :=
  claim_c9_output_format {"b.x.com", "a.x.com"} none ⟨"b.x.com", by decide⟩

theorem run_async_eq_empty (V : Validator) (sources : List Source)
    (cancel : ℕ → Bool) (m : ℕ) (input : List String) (fs : Option String)
    (h : (active_domains V input).isEmpty = true) :
    run_async V sources cancel m input fs
      = { outcome := RunOutcome.setupError, acc := init_acc,
          fsFinal := fs } := by
  unfold run_async
  rw [if_pos h]

theorem run_async_acc (V : Validator) (sources : List Source)
    (cancel : ℕ → Bool) (m : ℕ) (input : List String) (fs : Option String)
    (h : (active_domains V input).isEmpty = false) :
    (run_async V sources cancel m input fs).acc
      = (run_async_loop V sources cancel m (active_domains V input).length 0
          (active_domains V input) init_acc).1 := by
  unfold run_async
  rw [if_neg (by simp [h])]
  by_cases hc : cancel (2 * (run_async_loop V sources cancel m
      (active_domains V input).length 0 (active_domains V input)
      init_acc).2) = true
  · rw [if_pos hc]
  · rw [if_neg hc]

theorem run_async_cancelled_iff (V : Validator) (sources : List Source)
    (cancel : ℕ → Bool) (m : ℕ) (input : List String) (fs : Option String)
    (h : (active_domains V input).isEmpty = false) :
    (run_async V sources cancel m input fs).outcome = RunOutcome.cancelled
      ↔ cancel (2 * (run_async_loop V sources cancel m
          (active_domains V input).length 0 (active_domains V input)
          init_acc).2) = true := by
  unfold run_async
  rw [if_neg (by simp [h])]
  by_cases hc : cancel (2 * (run_async_loop V sources cancel m
      (active_domains V input).length 0 (active_domains V input)
      init_acc).2) = true
  · rw [if_pos hc]
    simp [hc]
  · rw [if_neg hc]
    simp [hc]

theorem run_async_fs (V : Validator) (sources : List Source)
    (cancel : ℕ → Bool) (m : ℕ) (input : List String) (fs : Option String)
    (h : (active_domains V input).isEmpty = false) :
    (run_async V sources cancel m input fs).fsFinal = none := by
  unfold run_async
  rw [if_neg (by simp [h])]
  by_cases hc : cancel (2 * (run_async_loop V sources cancel m
      (active_domains V input).length 0 (active_domains V input)
      init_acc).2) = true
  · rw [if_pos hc]
    rfl
  · rw [if_neg hc]
    show (save_subdomains _ (clear_output_file fs)).1 = none
    unfold save_subdomains
    by_cases hne : (run_async_loop V sources cancel m
        (active_domains V input).length 0 (active_domains V input)
        init_acc).1.all_subdomains.Nonempty
    · rw [if_pos hne]
    · rw [if_neg hne]
      rfl

/-- C4: for every uncancelled run, the aggregated result equals the set union
of the per-domain results over all scheduled domains, and this union is
independent of the window size and of the order of the domain list (and hence
of the completion order inside a window, the merge being a set union). -/
theorem claim_c4_union (V : Validator) (sources : List Source) (m : ℕ)
    (input : List String) (fs : Option String) :
    (run_async V sources (fun _ => false) m input fs).acc.all_subdomains
      = union_list ((active_domains V input).map
          fun d => process_domain V false d sources)
    ∧ ∀ (m2 : ℕ) (input2 : List String) (fs2 : Option String),
        input.Perm input2 →
        (run_async V sources (fun _ => false) m input fs).acc.all_subdomains
          = (run_async V sources (fun _ => false) m2 input2
              fs2).acc.all_subdomains := by
  have key : ∀ (m' : ℕ) (input' : List String) (fs' : Option String),
      (run_async V sources (fun _ => false) m' input'
        fs').acc.all_subdomains
      = union_list ((active_domains V input').map
          fun d => process_domain V false d sources) := by
    intro m' input' fs'
    cases hE : (active_domains V input').isEmpty with
    | true =>
      rw [run_async_eq_empty V sources (fun _ => false) m' input' fs' hE]
      rw [List.isEmpty_iff.mp hE]
      rfl
    | false =>
      rw [run_async_acc V sources (fun _ => false) m' input' fs' hE]
      rw [run_async_loop_union V sources m' (active_domains V input').length
        0 (active_domains V input') init_acc (le_refl _)]
      show (∅ : Finset String) ∪ _ = _
      rw [Finset.empty_union]
  refine ⟨key m input fs, ?_⟩
  intro m2 input2 fs2 hperm
  rw [key m input fs, key m2 input2 fs2]
  exact union_list_perm (List.Perm.map _ (List.Perm.filter _ hperm))

/-- C4 witness: two runs over permuted two-element inputs with different
window sizes agree. -/
theorem claim_c4_witness :
    (run_async permissive_validator [demo_source] (fun _ => false) 2
        ["a.com", "b.com"] none).acc.all_subdomains
      = union_list ((active_domains permissive_validator
          ["a.com", "b.com"]).map
          fun d => process_domain permissive_validator false d [demo_source])
    ∧ (run_async permissive_validator [demo_source] (fun _ => false) 2
        ["a.com", "b.com"] none).acc.all_subdomains
      = (run_async permissive_validator [demo_source] (fun _ => false) 0
          ["b.com", "a.com"] none).acc.all_subdomains :=
  ⟨(claim_c4_union permissive_validator [demo_source] 2 ["a.com", "b.com"]
      none).1,
   (claim_c4_union permissive_validator [demo_source] 2 ["a.com", "b.com"]
      none).2 0 ["b.com", "a.com"] none (List.Perm.swap "b.com" "a.com" [])⟩

/-- C5: throughout every run the completed-domain counter is monotone — the
successive values reported at window boundaries form a strictly increasing
sequence — and never exceeds the total number of scheduled domains; at the
end of a run that was not cancelled the counter equals the total (so the
final reported fraction `completed / total` is 1). -/
theorem claim_c5_progress_counter (V : Validator) (sources : List Source)
    (cancel : ℕ → Bool) (m : ℕ) (input : List String) (fs : Option String) :
    (run_async V sources cancel m input
      fs).acc.completedSeq.Chain' (· < ·)
    ∧ (∀ x ∈ (run_async V sources cancel m input fs).acc.completedSeq,
        x ≤ (active_domains V input).length)
    ∧ (run_async V sources cancel m input fs).acc.completed
        ≤ (active_domains V input).length
    ∧ ((run_async V sources cancel m input fs).outcome
          ≠ RunOutcome.cancelled →
        (run_async V sources cancel m input fs).acc.completed
          = (active_domains V input).length) := by
  cases hE : (active_domains V input).isEmpty with
  | true =>
    rw [run_async_eq_empty V sources cancel m input fs hE]
    rw [List.isEmpty_iff.mp hE]
    refine ⟨List.chain'_nil, by simp [init_acc], by simp [init_acc], ?_⟩
    intro _
    simp [init_acc]
  | false =>
    have hseq := run_async_loop_seq V sources cancel m
      (active_domains V input).length 0 (active_domains V input) init_acc
      (by simp [init_acc]) (by simp [init_acc])
    rw [run_async_acc V sources cancel m input fs hE]
    have hcompleted := hseq.2.2.2
    have hinit : init_acc.completed = 0 := rfl
    refine ⟨hseq.2.1, ?_, ?_, ?_⟩
    · intro x hx
      have := hseq.1 x hx
      omega
    · omega
    · intro hnc
      have hcan : cancel (2 * (run_async_loop V sources cancel m
          (active_domains V input).length 0 (active_domains V input)
          init_acc).2) = false := by
        cases hcv : cancel (2 * (run_async_loop V sources cancel m
            (active_domains V input).length 0 (active_domains V input)
            init_acc).2) with
        | false => rfl
        | true => exact absurd ((run_async_cancelled_iff V sources cancel m
            input fs hE).mpr hcv) hnc
      have := run_async_loop_complete V sources cancel m
        (active_domains V input).length 0 (active_domains V input) init_acc
        (le_refl _) hcan
      omega

/-- C5 witness: a concrete uncancelled two-domain run. -/
theorem claim_c5_witness :
    (run_async permissive_validator [demo_source] (fun _ => false) 0
      ["a.com", "b.com"] none).acc.completedSeq.Chain' (· < ·)
    ∧ (∀ x ∈ (run_async permissive_validator [demo_source] (fun _ => false) 0
        ["a.com", "b.com"] none).acc.completedSeq,
        x ≤ (active_domains permissive_validator ["a.com", "b.com"]).length)
    ∧ (run_async permissive_validator [demo_source] (fun _ => false) 0
        ["a.com", "b.com"] none).acc.completed
        ≤ (active_domains permissive_validator ["a.com", "b.com"]).length
    ∧ (run_async permissive_validator [demo_source] (fun _ => false) 0
        ["a.com", "b.com"] none).acc.completed
        = (active_domains permissive_validator ["a.com", "b.com"]).length :=
  ⟨(claim_c5_progress_counter permissive_validator [demo_source]
      (fun _ => false) 0 ["a.com", "b.com"] none).1,
   (claim_c5_progress_counter permissive_validator [demo_source]
      (fun _ => false) 0 ["a.com", "b.com"] none).2.1,
   (claim_c5_progress_counter permissive_validator [demo_source]
      (fun _ => false) 0 ["a.com", "b.com"] none).2.2.1,
   (claim_c5_progress_counter permissive_validator [demo_source]
      (fun _ => false) 0 ["a.com", "b.com"] none).2.2.2 (by decide)⟩

/-- C10: the local output file never persists past a run that reaches the
window loop: any pre-existing file at the output path is removed before the
first window is scheduled (`clear_output_file`, main.py lines 113-118), and
the results file, when written, is deleted right after being sent to the
result sink (main.py line 39), so after the run the output file does not
exist locally — whatever the outcome of the loop. -/
theorem claim_c10_no_file_left (V : Validator) (sources : List Source)
    (cancel : ℕ → Bool) (m : ℕ) (input : List String) (fs0 : Option String)
    (hactive : active_domains V input ≠ []) :
    clear_output_file fs0 = none
    ∧ (run_async V sources cancel m input fs0).fsFinal = none := by
  refine ⟨rfl, ?_⟩
  apply run_async_fs
  cases hact : (active_domains V input).isEmpty with
  | false => rfl
  | true => exact absurd (List.isEmpty_iff.mp hact) hactive

/-- C10 witness: a run starting from a pre-existing output file. -/
theorem claim_c10_witness :
    clear_output_file (some "stale content") = none
    ∧ (run_async permissive_validator [demo_source] (fun _ => false) 2
        ["a.com"] (some "stale content")).fsFinal = none :=
  claim_c10_no_file_left permissive_validator [demo_source] (fun _ => false)
    2 ["a.com"] (some "stale content") (by decide)

/-- C3: cancellation only prevents new work from starting.  With a monotone
cancellation schedule that is signalled at (or before) the boundary check of
window `j`: every adapter invocation of the whole run belongs to a domain of
the first `j` windows, so no later window is dispatched and no domain of a
later window invokes any adapter; a domain whose checkpoint observes the
signal returns the empty set immediately, invoking no adapter; and a domain
already in flight — whose checkpoint observed the signal as unset — runs to
completion, invoking every configured adapter. -/
theorem claim_c3_cooperative_cancellation (V : Validator)
    (sources : List Source) (cancel : ℕ → Bool) (m j : ℕ)
    (input : List String) (fs : Option String)
    (hmono : ∀ a b, a ≤ b → cancel a = true → cancel b = true)
    (hj : cancel (2 * j) = true) :
    (∀ p ∈ (run_async V sources cancel m input fs).acc.invoked,
        p.1 ∈ (active_domains V input).take (j * (m + 1)))
    ∧ (∀ (d : String) (sources2 : List Source),
        process_domain_trace V true d sources2 = (∅, []))
    ∧ (∀ (d : String) (sources2 : List Source),
        V.is_valid_domain d = true →
        (process_domain_trace V false d sources2).2
          = sources2.map Source.name) := by
  refine ⟨?_, fun d sources2 => rfl, fun d sources2 hv => ?_⟩
  · intro p hp
    cases hE : (active_domains V input).isEmpty with
    | true =>
      rw [run_async_eq_empty V sources cancel m input fs hE] at hp
      simp [init_acc] at hp
    | false =>
      rw [run_async_acc V sources cancel m input fs hE] at hp
      have hres := run_async_loop_invoked V sources cancel m j hmono hj
        (active_domains V input).length 0 (active_domains V input) init_acc
        p hp
      rcases hres with h | h
      · simp [init_acc] at h
      · simpa using h
  · unfold process_domain_trace
    rw [hv]
    rfl

/-- C3 witness: a run whose cancellation is signalled from the start invokes
nothing, instantiated together with the two checkpoint facts. -/
theorem claim_c3_witness :
    (∀ p ∈ (run_async permissive_validator [demo_source] (fun _ => true) 2
        ["a.com"] none).acc.invoked,
        p.1 ∈ (active_domains permissive_validator
          ["a.com"]).take (0 * (2 + 1)))
    ∧ (∀ (d : String) (sources2 : List Source),
        process_domain_trace permissive_validator true d sources2 = (∅, []))
    ∧ (∀ (d : String) (sources2 : List Source),
        permissive_validator.is_valid_domain d = true →
        (process_domain_trace permissive_validator false d sources2).2
          = sources2.map Source.name) :=
  claim_c3_cooperative_cancellation permissive_validator [demo_source]
    (fun _ => true) 2 0 ["a.com"] none (fun _ _ _ hc => hc) rfl

/-- C6 counterexample: the claim says that when cancellation fires at a
window boundary the caller receives the results accumulated so far as a
partial run result.  In this run (window size 3, four domains, cancellation
signalled after the first window) the first window accumulated the non-empty
set `{"x.a.com"}`, yet the run returns the bare cancellation signal
(`RunOutcome.cancelled` carries no result payload; main.py lines 138-139
`return` without calling `save_subdomains`), so the accumulated results are
discarded rather than returned. -/
theorem claim_c6_counterexample :
    (run_async permissive_validator [demo_source] cancel_after_first_window
        2 ["a.com", "b.com", "c.com", "d.com"] none).outcome
      = RunOutcome.cancelled
    ∧ (run_async permissive_validator [demo_source] cancel_after_first_window
        2 ["a.com", "b.com", "c.com", "d.com"] none).acc.all_subdomains
      = {"x.a.com"} := by
  constructor
  · decide
  · decide

/-- C6 (amended): the caller always receives exactly one of a completed-run
result (possibly with an empty payload), an explicit cancellation signal, or
a setup-error signal; when cancellation fires at a window boundary while
domains remain unprocessed, the run stops scheduling further windows and
returns the cancellation signal alone — the results accumulated so far are
discarded, not delivered to the caller. -/
theorem claim_c6_outcome (V : Validator) (sources : List Source)
    (cancel : ℕ → Bool) (m j : ℕ) (input : List String) (fs : Option String)
    (hmono : ∀ a b, a ≤ b → cancel a = true → cancel b = true)
    (hj : cancel (2 * j) = true)
    (hrem : j * (m + 1) < (active_domains V input).length) :
    (run_async V sources cancel m input fs).outcome = RunOutcome.cancelled
    ∧ ∀ (V2 : Validator) (sources2 : List Source) (cancel2 : ℕ → Bool)
        (m2 : ℕ) (input2 : List String) (fs2 : Option String),
        (run_async V2 sources2 cancel2 m2 input2 fs2).outcome
            = RunOutcome.setupError
        ∨ (run_async V2 sources2 cancel2 m2 input2 fs2).outcome
            = RunOutcome.cancelled
        ∨ ∃ s, (run_async V2 sources2 cancel2 m2 input2 fs2).outcome
            = RunOutcome.completed s := by
  constructor
  · have hE : (active_domains V input).isEmpty = false := by
      cases hact : (active_domains V input).isEmpty with
      | false => rfl
      | true =>
        rw [List.isEmpty_iff.mp hact] at hrem
        simp at hrem
    rw [run_async_cancelled_iff V sources cancel m input fs hE]
    apply run_async_loop_cancel_stop V sources cancel m j hmono hj
    · exact le_refl _
    · simpa using hrem
  · intro V2 sources2 cancel2 m2 input2 fs2
    unfold run_async
    by_cases hE : (active_domains V2 input2).isEmpty = true
    · rw [if_pos hE]
      left
      rfl
    · rw [if_neg hE]
      by_cases hc : cancel2 (2 * (run_async_loop V2 sources2 cancel2 m2
          (active_domains V2 input2).length 0 (active_domains V2 input2)
          init_acc).2) = true
      · rw [if_pos hc]
        right
        left
        rfl
      · rw [if_neg hc]
        right
        right
        exact ⟨_, rfl⟩

/-- C6 witness: the amended statement instantiated at the cancelled run of
the counterexample, with the trichotomy instantiated at a small completed
run. -/
theorem claim_c6_witness :
    (run_async permissive_validator [demo_source] cancel_after_first_window
        2 ["a.com", "b.com", "c.com", "d.com"] none).outcome
      = RunOutcome.cancelled
    ∧ ((run_async permissive_validator [demo_source] (fun _ => false) 2
          ["a.com"] none).outcome = RunOutcome.setupError
      ∨ (run_async permissive_validator [demo_source] (fun _ => false) 2
          ["a.com"] none).outcome = RunOutcome.cancelled
      ∨ ∃ s, (run_async permissive_validator [demo_source] (fun _ => false) 2
          ["a.com"] none).outcome = RunOutcome.completed s) :=
  ⟨(claim_c6_outcome permissive_validator [demo_source]
      cancel_after_first_window 2 1 ["a.com", "b.com", "c.com", "d.com"] none
      (fun a b hab ha => by
        simp only [cancel_after_first_window, decide_eq_true_eq] at ha ⊢
        omega)
      (by decide) (by decide)).1,
   (claim_c6_outcome permissive_validator [demo_source]
      cancel_after_first_window 2 1 ["a.com", "b.com", "c.com", "d.com"] none
      (fun a b hab ha => by
        simp only [cancel_after_first_window, decide_eq_true_eq] at ha ⊢
        omega)
      (by decide) (by decide)).2 permissive_validator [demo_source]
      (fun _ => false) 2 ["a.com"] none⟩

/-- C8: for every run, at most one progress notification is emitted per
distinct integer percentage value — the list of percentages emitted over the
run's window-boundary updates, starting from the reset `last_percentage = -1`,
has no duplicates — and at each single update, a notification is withheld
exactly when the computed integer percentage equals the last reported one. -/
theorem claim_c8_coalesced_progress (V : Validator) (sources : List Source)
    (cancel : ℕ → Bool) (m : ℕ) (input : List String) (fs : Option String) :
    (progress_emissions (-1)
        ((run_async V sources cancel m input fs).acc.completedSeq.map
          fun c =>
            ((100 * c / (active_domains V input).length : ℕ) : Int))).Nodup
    ∧ ∀ last p : Int, (update_progress last p).1 = none ↔ p = last := by
  constructor
  · cases hE : (active_domains V input).isEmpty with
    | true =>
      rw [run_async_eq_empty V sources cancel m input fs hE]
      simp [init_acc, progress_emissions]
    | false =>
      have ht : 0 < (active_domains V input).length := by
        cases hl : active_domains V input with
        | nil => rw [hl] at hE
                 simp at hE
        | cons a t => simp [hl]
      rw [run_async_acc V sources cancel m input fs hE]
      have hseq := run_async_loop_seq V sources cancel m
        (active_domains V input).length 0 (active_domains V input) init_acc
        (by simp [init_acc]) (by simp [init_acc])
      have hub_nat : ∀ x ∈ (run_async_loop V sources cancel m
          (active_domains V input).length 0 (active_domains V input)
          init_acc).1.completedSeq, x ≤ (active_domains V input).length := by
        intro x hx
        have h1 := hseq.1 x hx
        have h2 := hseq.2.2.2
        have hinit : init_acc.completed = 0 := rfl
        omega
      have hdrop_nat := chain_lt_dropLast hseq.2.1 hub_nat
      have hmain := progress_emissions_chain
        ((run_async_loop V sources cancel m
          (active_domains V input).length 0 (active_domains V input)
          init_acc).1.completedSeq.map
          fun c =>
            ((100 * c / (active_domains V input).length : ℕ) : Int)) (-1)
        ?_ ?_ ?_ ?_
      · exact List.Pairwise.imp (fun h => ne_of_lt h)
          (List.chain'_iff_pairwise.mp hmain.1)
      · intro p hp
        rcases List.mem_map.mp hp with ⟨c, _, rfl⟩
        have := Int.natCast_nonneg
          (100 * c / (active_domains V input).length)
        omega
      · rw [List.pairwise_map]
        apply List.Pairwise.imp ?_
          (List.chain'_iff_pairwise.mp hseq.2.1)
        intro a b hab
        have : 100 * a / (active_domains V input).length
            ≤ 100 * b / (active_domains V input).length :=
          Nat.div_le_div_right (Nat.mul_le_mul_left 100 (le_of_lt hab))
        exact_mod_cast this
      · intro p hp
        rw [← List.map_dropLast] at hp
        rcases List.mem_map.mp hp with ⟨c, hc, rfl⟩
        have hct : c < (active_domains V input).length := hdrop_nat c hc
        have : 100 * c / (active_domains V input).length < 100 :=
          (Nat.div_lt_iff_lt_mul ht).mpr (by omega)
        exact_mod_cast this
      · intro p hp
        rcases List.mem_map.mp hp with ⟨c, hc, rfl⟩
        have hcle : c ≤ (active_domains V input).length := hub_nat c hc
        have h1 : 100 * c / (active_domains V input).length
            ≤ 100 * (active_domains V input).length
              / (active_domains V input).length :=
          Nat.div_le_div_right (Nat.mul_le_mul_left 100 hcle)
        have h2 : 100 * (active_domains V input).length
            / (active_domains V input).length = 100 :=
          Nat.mul_div_cancel 100 ht
        have : 100 * c / (active_domains V input).length ≤ 100 := by omega
        exact_mod_cast this
  · intro last p
    by_cases h : p = last
    · simp [update_progress, h]
    · simp [update_progress, h]

end SubFinder
